import Mathlib

/-!
Verification of the documentation-to-schema generator.

The development shallowly embeds the two lowering pipelines of the
repository: the OpenAPI lowering (`HomeAssistantConfigurationModel.ts`)
and the typed-model lowering (`generator/src/entity.ts` plus its
variant), together with the sentinel-based schema extractor and the
device-class enum extractor (`generator/src/device-class.ts`).
Strings from the JavaScript side are modelled as `String` or
`List Char`; JavaScript objects appearing as ordered mappings are
modelled as association lists in insertion order.
-/

/-- A default value as it appears in the informal YAML dialect.  Only the
shapes that occur in attribute records are modelled: strings, booleans and
integers.  JavaScript truthiness on these drives the default annotation. -/
inductive DefaultVal where
  | str (s : String)
  | bool (b : Bool)
  | int (n : Int)

/-- JavaScript truthiness of a present default value. -/
def DefaultVal.truthy : DefaultVal → Bool
  | .str s => !s.isEmpty
  | .bool b => b
  | .int n => n != 0

/-- JavaScript string interpolation of a default value. -/
def DefaultVal.render : DefaultVal → String
  | .str s => s
  | .bool b => if b then "true" else "false"
  | .int n => toString n

mutual

/-- One attribute record of the raw schema node, as decoded from the
configuration block: `description`, `required`, the raw `type` tag
(`none` models an absent tag), optional nested `keys`, optional
`default`.  Mirrors the `Property` union of
`HomeAssistantConfigurationModel.ts`. -/
inductive AttrRecord where
  | mk (description : Option String) (required : Bool) (type : Option String)
       (keys : Keys) (default : Option DefaultVal)

/-- The optional nested mapping of child attribute records. -/
inductive Keys where
  | absent
  | present (children : SchemaList)

/-- An ordered mapping from property name to attribute record, in source
declaration order (a JavaScript object seen through `Object.entries`). -/
inductive SchemaList where
  | nil
  | cons (name : String) (attr : AttrRecord) (rest : SchemaList)

end

def AttrRecord.description : AttrRecord → Option String
  | .mk d _ _ _ _ => d

def AttrRecord.required : AttrRecord → Bool
  | .mk _ r _ _ _ => r

def AttrRecord.type : AttrRecord → Option String
  | .mk _ _ t _ _ => t

def AttrRecord.keys : AttrRecord → Keys
  | .mk _ _ _ k _ => k

def AttrRecord.default : AttrRecord → Option DefaultVal
  | .mk _ _ _ _ df => df

/-- View of a schema mapping as a plain list of name/record pairs. -/
def toPairs : SchemaList → List (String × AttrRecord)
  | .nil => []
  | .cons n a t => (n, a) :: toPairs t

/-- First record bound to a name (JavaScript property access on an object
built from unique keys). -/
def schemaLookup : SchemaList → String → Option AttrRecord
  | .nil, _ => none
  | .cons n a t, m => if n == m then some a else schemaLookup t m

/-- `Object.entries(keys).filter(([_, s]) => s.required === true).map(([n, _]) => n)`:
the names of the children whose record has `required == true`, in
declaration order. -/
def requiredKeys : SchemaList → List String
  | .nil => []
  | .cons n a t => if a.required then n :: requiredKeys t else requiredKeys t

/-- `Array.prototype.join(" ")`. -/
def joinSpace : List String → String
  | [] => ""
  | [s] => s
  | s :: t => s ++ " " ++ joinSpace t

/-- The `(Default: …)` annotation: present exactly when a default exists
and is truthy (`"default" in prop && prop.default`). -/
def defaultAnnotation : Option DefaultVal → Option String
  | none => none
  | some v => if v.truthy then some ("(Default: " ++ v.render ++ ")") else none

/-- `describe` from `HomeAssistantConfigurationModel.ts`:
`[prop.description, def].filter((s) => !!s).join(" ")` over the record's
description and default fields. -/
def describeD (desc : Option String) (df : Option DefaultVal) : String :=
  joinSpace ((([desc, defaultAnnotation df].filterMap id)).filter (fun s => !s.isEmpty))

def describeProp (p : AttrRecord) : String :=
  describeD p.description p.default

/-- The OpenAPI-flavoured output node.  `obj` carries the `required` name
list and the ordered `properties` mapping; a property's value is
`Option`al because the lowering of an unknown tag yields JavaScript
`undefined`.  `arrScalar` is the array schema with `items: \x7btype: "string"\x7d`;
`arrBare` is the array schema whose `items` is the bare (unwrapped)
properties mapping; `str` is `\x7btype: "string", description\x7d`. -/
inductive OpenapiNode where
  | obj (description : String) (required : List String)
        (properties : List (String × Option OpenapiNode))
  | arrScalar (description : String)
  | arrBare (description : String) (properties : List (String × Option OpenapiNode))
  | str (description : String)

mutual

/-- Body of `toOpenapiObjectProperty`: requires the nested keys mapping
(`Object.entries` of an absent `keys` throws a `TypeError`, modelled as
`Except.error`), and emits the object node with the required-name list
and the per-child lowered properties in insertion order. -/
def lowerObjectCore (desc : String) : Keys → Except String OpenapiNode
  | .absent => .error "TypeError: Object.entries called on undefined"
  | .present l =>
      match lowerChildren l with
      | .error e => .error e
      | .ok props => .ok (.obj desc (requiredKeys l) props)

/-- Body of `toOpenapiListProperty`: without `keys` the items are the
fixed scalar marker; with `keys` the items are the bare properties
mapping. -/
def lowerListCore (desc : String) : Keys → Except String OpenapiNode
  | .absent => .ok (.arrScalar desc)
  | .present l =>
      match lowerChildren l with
      | .error e => .error e
      | .ok props => .ok (.arrBare desc props)

/-- `toOpenapiObjectPropertyA`: the classifier switch over the raw type
tag.  An unknown tag matches no case and the JavaScript function returns
`undefined`, modelled as `.ok none`. -/
def toOpenapiObjectPropertyA : AttrRecord → Except String (Option OpenapiNode)
  | .mk d _ ty ks df =>
      match ty with
      | none => (lowerObjectCore (describeD d df) ks).map some
      | some "map" => (lowerObjectCore (describeD d df) ks).map some
      | some "list" => (lowerListCore (describeD d df) ks).map some
      | some "device_class" => .ok (some (.str (describeD d df)))
      | some "boolean" => .ok (some (.str (describeD d df)))
      | some "integer" => .ok (some (.str (describeD d df)))
      | some "template" => .ok (some (.str (describeD d df)))
      | some "string" => .ok (some (.str (describeD d df)))
      | some _ => .ok none

/-- Lowering of an ordered children mapping, preserving insertion
order. -/
def lowerChildren : SchemaList → Except String (List (String × Option OpenapiNode))
  | .nil => .ok []
  | .cons n a t =>
      match toOpenapiObjectPropertyA a with
      | .error e => .error e
      | .ok c =>
          match lowerChildren t with
          | .error e => .error e
          | .ok rest => .ok ((n, c) :: rest)

end

/-- `toOpenapiObjectProperty` from `HomeAssistantConfigurationModel.ts`. -/
def toOpenapiObjectProperty (p : AttrRecord) : Except String OpenapiNode :=
  lowerObjectCore (describeProp p) p.keys

/-- `toOpenapiListProperty` from `HomeAssistantConfigurationModel.ts`. -/
def toOpenapiListProperty (p : AttrRecord) : Except String OpenapiNode :=
  lowerListCore (describeProp p) p.keys

/-- `toOpenapiObjectModel`: wraps the decoded configuration mapping in a
synthetic required object record with type tag `"map"`. -/
def toOpenapiObjectModel (description : Option String) (config : SchemaList) :
    Except String OpenapiNode :=
  toOpenapiObjectProperty (.mk description true (some "map") (.present config) none)

/-- The four legacy availability property names, in source order. -/
def AVAILABILITY_PROPERTIES : List String :=
  ["availability_topic", "payload_available", "payload_not_available",
   "availability_template"]

def nodeProperties : OpenapiNode → List (String × Option OpenapiNode)
  | .obj _ _ ps => ps
  | .arrBare _ ps => ps
  | _ => []

def nodeRequired : OpenapiNode → List String
  | .obj _ rq _ => rq
  | _ => []

/-- JavaScript property access `model.properties.<n>` on the lowered
object: absent keys and keys bound to `undefined` both read as
`undefined`. -/
def jsGet (props : List (String × Option OpenapiNode)) (n : String) :
    Option OpenapiNode :=
  (List.lookup n props).join

/-- Shape of `getAvailabilityModel`'s result: a one-of with exactly two
branches, the `allOf` pair and the legacy-name object. -/
structure AvailabilityModel where
  allOfBranch : List (Option OpenapiNode)
  legacyBranch : List (String × Option OpenapiNode)

/-- `getAvailabilityModel` from `HomeAssistantConfigurationModel.ts`. -/
def getAvailabilityModel (description : Option String) (config : SchemaList) :
    Except String AvailabilityModel :=
  match toOpenapiObjectModel description config with
  | .error e => .error e
  | .ok model =>
      .ok { allOfBranch := [jsGet (nodeProperties model) "availability",
                            jsGet (nodeProperties model) "availability_mode"],
            legacyBranch := (nodeProperties model).filter
              (fun e => AVAILABILITY_PROPERTIES.contains e.1) }

/-- Split a character list at the first occurrence of `needle`, returning
the text before and after it. -/
def firstSplit (needle : List Char) : List Char → Option (List Char × List Char)
  | [] => if needle.isPrefixOf ([] : List Char) then some ([], []) else none
  | c :: t =>
      if needle.isPrefixOf (c :: t) then some ([], (c :: t).drop needle.length)
      else (firstSplit needle t).map (fun p => (c :: p.1, p.2))

/-- Split a character list at the last occurrence of `needle`, returning
the text before and after it. -/
def lastSplit (needle : List Char) : List Char → Option (List Char × List Char)
  | [] => if needle.isPrefixOf ([] : List Char) then some ([], []) else none
  | c :: t =>
      match lastSplit needle t with
      | some p => some (c :: p.1, p.2)
      | none =>
          if needle.isPrefixOf (c :: t) then some ([], (c :: t).drop needle.length)
          else none

/-- `text.replace(/.*NEEDLE/s, "")`: the greedy dot-all prefix reaches the
last occurrence of the needle, so the replacement drops everything
through it; with no occurrence the text is unchanged. -/
def dropThroughLast (needle hay : List Char) : List Char :=
  match lastSplit needle hay with
  | some p => p.2
  | none => hay

/-- `text.replace(/NEEDLE.*/s, "")`: replacement starts at the first
occurrence of the needle and the greedy dot-all tail reaches the end, so
everything from the first occurrence on is dropped; with no occurrence
the text is unchanged. -/
def takeBeforeFirst (needle hay : List Char) : List Char :=
  match firstSplit needle hay with
  | some p => p.1
  | none => hay

def OPEN_SENTINEL : List Char := "\x7b% configuration %\x7d".toList

def CLOSE_SENTINEL : List Char := "\x7b% endconfiguration %\x7d".toList

/-- The schema extraction of `HomeAssistantConfiguration`'s constructor:
`source.replace(/.*open/s, "").replace(/close.*/s, "")`. -/
def extractConfigurationSource (doc : List Char) : List Char :=
  takeBeforeFirst CLOSE_SENTINEL (dropThroughLast OPEN_SENTINEL doc)

/-- The schema extraction of `generator/src/entity.ts`:
`/open([^]*)close/gm.exec(doc)` — the greedy capture runs from the first
opening sentinel to the last closing sentinel after it; `none` models a
`null` match result. -/
def entityExtract (doc : List Char) : Option (List Char) :=
  match firstSplit OPEN_SENTINEL doc with
  | none => none
  | some p => (lastSplit CLOSE_SENTINEL p.2).map (fun q => q.1)

/-- `\w` of JavaScript regular expressions. -/
def isWordChar (c : Char) : Bool :=
  c.isAlpha || c.isDigit || c == '_'

/-- Case-insensitive literal match: `pat` is given in lower case; on
success returns the remaining text. -/
def ciPrefix : List Char → List Char → Option (List Char)
  | [], l => some l
  | _ :: _, [] => none
  | p :: pt, c :: ct => if c.toLower == p then ciPrefix pt ct else none

/-- Attempt of `/^###* Device Class(?:es)?([^]*)/i` at one position: at
least two `#`, any further `#`s, the case-insensitive words, an optional
case-insensitive `es`, then the capture running to the end of input. -/
def headMatch : List Char → Option (List Char)
  | '#' :: '#' :: rest =>
      match ciPrefix " device class".toList (rest.dropWhile (fun c => c == '#')) with
      | none => none
      | some r1 =>
          match ciPrefix "es".toList r1 with
          | some r2 => some r2
          | none => some r1
  | _ => none

/-- Scan of `exec` with the multiline flag: try `headMatch` at every
line-start position, left to right. -/
def findHeading : List Char → Bool → Option (List Char)
  | [], _ => none
  | c :: t, atStart =>
      if atStart then
        match headMatch (c :: t) with
        | some cap => some cap
        | none => findHeading t (c == '\n')
      else findHeading t (c == '\n')

def isHeadingStart : List Char → Bool
  | '#' :: '#' :: _ => true
  | _ => false

/-- `capture.replace(/^###*[^]*/gm, "")`: delete everything from the
first line-start run of two or more `#` to the end of input. -/
def stripFromHeading : List Char → Bool → List Char
  | [], _ => []
  | c :: t, atStart =>
      if atStart && isHeadingStart (c :: t) then []
      else c :: stripFromHeading t (c == '\n')

/-- `String.prototype.split("\n")`. -/
def splitLines : List Char → List (List Char)
  | [] => [[]]
  | c :: t =>
      if c == '\n' then [] :: splitLines t
      else
        match splitLines t with
        | h :: r => (c :: h) :: r
        | [] => [[c]]

/-- The bullet pattern `"- name: description"` (with greedy `.*` groups
for name and description): the match starts at the first `"- "` whose
remainder contains `": "`; the greedy name group extends to the last
`": "`. -/
def bulletMatch (line : List Char) : Option (List Char × List Char) :=
  match firstSplit ['-', ' '] line with
  | none => none
  | some p => lastSplit [':', ' '] p.2

/-- `extractDeviceClassesEnums` from `generator/src/device-class.ts`.
`none` models the `TypeError` thrown by indexing a `null` match when no
Device Class heading exists; otherwise the heading's capture is cut at
the next `##`-or-deeper heading, split into lines, and each line
matching the bullet pattern yields a value (non-word characters
stripped) and a description. -/
def extractDeviceClassesEnums (name : String) (doc : List Char) :
    Option (String × List (List Char × List Char)) :=
  match findHeading doc true with
  | none => none
  | some cap =>
      let span := stripFromHeading cap true
      some (name, (splitLines span).filterMap (fun line =>
        (bulletMatch line).map (fun p => (p.1.filter isWordChar, p.2))))

/-- `true` when no line-start position inside `p` begins a Device Class
heading match, reading ahead into the continuation `k`. -/
def scanNoMatch : List Char → List Char → Bool → Bool
  | [], _, _ => true
  | c :: t, k, atStart =>
      (if atStart then (headMatch ((c :: t) ++ k)).isNone else true) &&
        scanNoMatch t k (c == '\n')

/-- The line-start flag after scanning `p` with initial flag `b`. -/
def flagAfter : List Char → Bool → Bool
  | [], b => b
  | c :: t, _ => flagAfter t (c == '\n')

/-- The raw type tag of the typed-model path: either a plain string tag
or the compound string-or-list tag `["string", "list"]`. -/
inductive GenType where
  | tag (s : String)
  | compound (variants : List String)
deriving DecidableEq

/-- `[...].includes(attrs.type)` over a list of string tags: strict
equality, so a compound tag never matches. -/
def tagIn (l : List String) : GenType → Bool
  | .tag s => l.contains s
  | .compound _ => false

/-- `attrs.type.includes("list")`: substring containment for a string
tag, element containment for the compound tag. -/
def typeIncludesList : GenType → Bool
  | .tag s => (firstSplit "list".toList s.toList).isSome
  | .compound l => l.contains "list"

/-- `FieldAttributes` of `generator/src/entity.ts`: the as-parsed fields
plus the enrichment fields written by `appendRustType` (all absent on
the freshly decoded record). -/
structure FieldAttributes where
  description : String
  required : Bool
  type : GenType
  hasKeys : Bool := false
  rustType : Option String := none
  rustImport : Option String := none
  useInto : Bool := false
  iterable : Bool := false
  rustSafeName : Option String := none
deriving DecidableEq

/-- One attempt of `/integrations/(?<name>[^/]*)/#device-class` at the
head of the text: the fixed prefix, then the greedy slash-free name run,
then the fixed anchor tail. -/
def anchorAt (l : List Char) : Option (List Char) :=
  if "/integrations/".toList.isPrefixOf l then
    let rest := l.drop "/integrations/".toList.length
    let nm := rest.takeWhile (fun c => !(c == '/'))
    if "/#device-class".toList.isPrefixOf (rest.drop nm.length) then some nm
    else none
  else none

/-- Left-to-right scan of the device-class anchor pattern over a
description text. -/
def findAnchor : List Char → Option (List Char)
  | [] => none
  | c :: t =>
      match anchorAt (c :: t) with
      | some nm => some nm
      | none => findAnchor t

mutual

/-- `word.replace(/(\w)(\w*)/g, ...)` — first letter of each word-char
run upper-cased: this variant starts a run. -/
def pascalRun : List Char → List Char
  | [] => []
  | c :: t =>
      if isWordChar c then c.toUpper :: pascalLower t
      else c :: pascalRun t

/-- Continuation inside a word-char run: remaining letters lower-cased. -/
def pascalLower : List Char → List Char
  | [] => []
  | c :: t =>
      if isWordChar c then c.toLower :: pascalLower t
      else c :: pascalRun t

end

/-- `toPascalCase` from `generator/src/strings.ts`: split on `_`,
capitalize each word-character run, join with nothing. -/
def toPascalCase (text : String) : String :=
  String.join ((text.splitOn "_").map (fun w => String.mk (pascalRun w.toList)))

/-- The base type switch of `appendRustType` in `generator/src/entity.ts`
(first switch, on the raw type tag). -/
def baseTypeSwitch (a : FieldAttributes) : FieldAttributes :=
  match a.type with
  | .tag "template" => { a with rustType := some "String", useInto := true }
  | .tag "string" => { a with rustType := some "String", useInto := true }
  | .tag "icon" => { a with rustType := some "String", useInto := true }
  | .tag "float" => { a with rustType := some "f32" }
  | .tag "integer" => { a with rustType := some "i32" }
  | .tag "boolean" => { a with rustType := some "bool" }
  | t => if typeIncludesList t then { a with rustType := some "Vec<String>" } else a

/-- The name-driven override switch of `appendRustType` in
`generator/src/entity.ts` (second switch, on the field name). -/
def nameSwitch (name : String) (a : FieldAttributes) : FieldAttributes :=
  match name with
  | "device_class" =>
      match findAnchor a.description.toList with
      | some nm =>
          if nm.isEmpty then a
          else
            let dc := toPascalCase (String.mk nm) ++ "DeviceClass"
            { a with rustType := some dc,
                     rustImport := some ("use super::device_classes::" ++ dc) }
      | none => a
  | "unit_of_measurement" =>
      { a with rustType := some "Unit", rustImport := some "use super::units::Unit" }
  | "state_class" =>
      { a with rustType := some "SensorStateClass",
               rustImport := some "use super::common::SensorStateClass" }
  | "qos" =>
      { a with rustType := some "Qos", rustImport := some "use super::common::Qos" }
  | _ => a

/-- `appendRustType` from `generator/src/entity.ts`: set the
collision-safe identifier, apply the base type switch, then the
name-driven override switch. -/
def appendRustType (name : String) (a : FieldAttributes) : FieldAttributes :=
  nameSwitch name
    (baseTypeSwitch
      { a with rustSafeName := some (if name == "type" then "r#" ++ name else name) })

/-- `IGNORED_ATTRS` of `generator/src/entity.ts`. -/
def ENTITY_IGNORED_ATTRS : List String :=
  ["availability_mode", "availability_template", "availability_topic",
   "expire_after", "device", "entity_category", ""]

/-- The entry filtering of `generateMqttEntityModel` in
`generator/src/entity.ts`: drop entries whose raw type tag is literally
`"list"` or `"map"`, then drop entries whose name is in the ignore
list. -/
def entityFilteredEntries (schema : List (String × FieldAttributes))
    (ignored : List String) : List (String × FieldAttributes) :=
  (schema.filter (fun e => !(tagIn ["list", "map"] e.2.type))).filter
    (fun e => !(ignored.contains e.1))

/-- The retained properties of `generateMqttEntityModel` in
`generator/src/entity.ts`, after the in-place `appendRustType`
enrichment, in original order. -/
def generateMqttEntityProperties (schema : List (String × FieldAttributes))
    (ignored : List String) : List (String × FieldAttributes) :=
  (entityFilteredEntries schema ignored).map (fun e => (e.1, appendRustType e.1 e.2))

/-- `IGNORED_ATTRS` of the variant typed-model lowering. -/
def VARIANT_IGNORED_ATTRS : List String :=
  ["availability", "availability_mode", "availability_template",
   "availability_topic", "payload_available", "payload_not_available",
   "expire_after", "device", "entity_category"]

/-- The base type switch of the variant `appendRustType` (float maps to
`Decimal` with an import; a bare `"list"` tag without nested keys maps
to an iterable string). -/
def variantBaseTypeSwitch (a : FieldAttributes) : FieldAttributes :=
  match a.type with
  | .tag "template" => { a with rustType := some "String", useInto := true }
  | .tag "string" => { a with rustType := some "String", useInto := true }
  | .tag "icon" => { a with rustType := some "String", useInto := true }
  | .tag "float" => { a with rustType := some "Decimal",
                             rustImport := some "pub use rust_decimal::Decimal" }
  | .tag "integer" => { a with rustType := some "i32" }
  | .tag "boolean" => { a with rustType := some "bool" }
  | .tag "list" =>
      if !a.hasKeys then { a with rustType := some "String", iterable := true, useInto := true }
      else a
  | t => if typeIncludesList t then { a with rustType := some "String", iterable := true, useInto := true } else a

/-- The name-driven override switch of the variant `appendRustType`
(adds the `temperature_unit` case). -/
def variantNameSwitch (name : String) (a : FieldAttributes) : FieldAttributes :=
  match name with
  | "device_class" =>
      match findAnchor a.description.toList with
      | some nm =>
          if nm.isEmpty then a
          else
            let dc := toPascalCase (String.mk nm) ++ "DeviceClass"
            { a with rustType := some dc,
                     rustImport := some ("use super::device_classes::" ++ dc) }
      | none => a
  | "unit_of_measurement" =>
      { a with rustType := some "Unit", rustImport := some "use super::units::Unit" }
  | "state_class" =>
      { a with rustType := some "SensorStateClass",
               rustImport := some "use super::common::SensorStateClass" }
  | "qos" =>
      { a with rustType := some "Qos", rustImport := some "use super::common::Qos" }
  | "temperature_unit" =>
      { a with rustType := some "TemperatureUnit",
               rustImport := some "use super::common::TemperatureUnit" }
  | _ => a

/-- The variant `appendRustType`. -/
def variantAppendRustType (name : String) (a : FieldAttributes) : FieldAttributes :=
  variantNameSwitch name
    (variantBaseTypeSwitch
      { a with rustSafeName := some (if name == "type" then "r#" ++ name else name) })

/-- The entry filtering of the variant `generateMqttEntityModel`: only
the name-based ignore-list filter, with no filter on the raw type
tag. -/
def variantFilteredEntries (schema : List (String × FieldAttributes))
    (ignored : List String) : List (String × FieldAttributes) :=
  schema.filter (fun e => !(ignored.contains e.1))

/-- The retained properties of the variant `generateMqttEntityModel`. -/
def variantMqttEntityProperties (schema : List (String × FieldAttributes))
    (ignored : List String) : List (String × FieldAttributes) :=
  (variantFilteredEntries schema ignored).map
    (fun e => (e.1, variantAppendRustType e.1 e.2))

theorem lowerChildren_names : ∀ (ks : SchemaList) (props),
    lowerChildren ks = Except.ok props →
    props.map Prod.fst = (toPairs ks).map Prod.fst
  | .nil, props, h => by
      simp only [lowerChildren] at h
      cases h
      rfl
  | .cons n a t, props, h => by
      simp only [lowerChildren] at h
      cases hA : toOpenapiObjectPropertyA a with
      | error e => rw [hA] at h; cases h
      | ok c =>
          rw [hA] at h
          cases hT : lowerChildren t with
          | error e => rw [hT] at h; cases h
          | ok rest =>
              rw [hT] at h
              cases h
              simpa [toPairs] using lowerChildren_names t rest hT

theorem requiredKeys_eq : ∀ ks : SchemaList,
    requiredKeys ks = ((toPairs ks).filter (fun e => e.2.required)).map Prod.fst
  | .nil => rfl
  | .cons n a t => by
      cases ha : a.required <;>
        simp [requiredKeys, toPairs, List.filter_cons, ha, requiredKeys_eq t]

theorem lowerChildren_lookup : ∀ (ks : SchemaList) (props) (n : String) (r),
    lowerChildren ks = Except.ok props → schemaLookup ks n = some r →
    toOpenapiObjectPropertyA r = Except.ok (jsGet props n)
  | .nil, _, n, r, _, h2 => by simp [schemaLookup] at h2
  | .cons m a t, props, n, r, h, h2 => by
      simp only [lowerChildren] at h
      cases hA : toOpenapiObjectPropertyA a with
      | error e => rw [hA] at h; cases h
      | ok c =>
          rw [hA] at h
          cases hT : lowerChildren t with
          | error e => rw [hT] at h; cases h
          | ok rest =>
              rw [hT] at h
              cases h
              simp only [schemaLookup] at h2
              by_cases hmn : m = n
              · subst hmn
                simp only [beq_self_eq_true, if_true] at h2
                cases h2
                simpa [jsGet, List.lookup] using hA
              · have hb : (m == n) = false := by
                  rw [beq_eq_false_iff_ne]; exact hmn
                simp only [hb, Bool.false_eq_true, if_false] at h2
                have := lowerChildren_lookup t rest n r hT h2
                have hb2 : (n == m) = false := by
                  rw [beq_eq_false_iff_ne]; exact Ne.symm hmn
                simpa [jsGet, List.lookup, hb2] using this

theorem filter_fst_map_fst {α β : Type} (l : List (α × β)) (p : α → Bool) :
    (l.filter (fun e => p e.1)).map Prod.fst = (l.map Prod.fst).filter p := by
  induction l with
  | nil => rfl
  | cons x t ih =>
      cases hx : p x.1 <;> simp [List.filter_cons, hx, ih]

theorem lastSplit_append (needle : List Char) (hne : needle ≠ []) :
    ∀ (A R : List Char),
      lastSplit needle (needle.drop 1 ++ R) = none →
      lastSplit needle (A ++ (needle ++ R)) = some (A, R)
  | [], R, h => by
      cases needle with
      | nil => exact absurd rfl hne
      | cons c nt =>
          have h' : lastSplit (c :: nt) (nt ++ R) = none := by
            simpa using h
          have hp : (c :: nt).isPrefixOf (c :: (nt ++ R)) = true := by
            rw [List.isPrefixOf_iff_prefix]
            exact List.prefix_append (c :: nt) R
          have hd : List.drop (c :: nt).length (c :: (nt ++ R)) = R :=
            List.drop_left (c :: nt) R
          simp only [List.nil_append, List.cons_append, lastSplit, List.append_eq]
          rw [h']
          simp [hp, hd]
  | a :: A', R, h => by
      simp only [List.cons_append, lastSplit, List.append_eq]
      rw [lastSplit_append needle hne A' R h]

theorem firstSplit_append (needle : List Char) (hne : needle ≠ []) :
    ∀ (X B : List Char),
      (∀ i, i < X.length → needle.isPrefixOf ((X ++ (needle ++ B)).drop i) = false) →
      firstSplit needle (X ++ (needle ++ B)) = some (X, B)
  | [], B, _ => by
      cases needle with
      | nil => exact absurd rfl hne
      | cons c nt =>
          have hp : (c :: nt).isPrefixOf (c :: (nt ++ B)) = true := by
            rw [List.isPrefixOf_iff_prefix]
            exact List.prefix_append (c :: nt) B
          have hd : List.drop (c :: nt).length (c :: (nt ++ B)) = B :=
            List.drop_left (c :: nt) B
          simp only [List.nil_append, List.cons_append, firstSplit, List.append_eq]
          simp [hp, hd]
  | x :: X', B, h => by
      have h0 : needle.isPrefixOf (x :: (X' ++ (needle ++ B))) = false := by
        have := h 0 (by simp)
        simpa using this
      have hrec : ∀ i, i < X'.length →
          needle.isPrefixOf ((X' ++ (needle ++ B)).drop i) = false := by
        intro i hi
        have := h (i + 1) (by simpa using Nat.succ_lt_succ hi)
        simpa using this
      simp only [List.cons_append, firstSplit, List.append_eq]
      simp only [h0, Bool.false_eq_true, if_false]
      rw [firstSplit_append needle hne X' B hrec]
      rfl

theorem findHeading_append : ∀ (p k : List Char) (b : Bool),
    scanNoMatch p k b = true →
    findHeading (p ++ k) b = findHeading k (flagAfter p b)
  | [], k, b, _ => by simp [flagAfter]
  | c :: t, k, b, hp => by
      simp only [scanNoMatch, Bool.and_eq_true] at hp
      obtain ⟨h1, h2⟩ := hp
      cases b with
      | false =>
          simp only [List.cons_append, findHeading, flagAfter, if_false,
            Bool.false_eq_true]
          exact findHeading_append t k (c == '\n') h2
      | true =>
          have hnone : headMatch (c :: (t ++ k)) = none := by
            simp only [if_true] at h1
            exact Option.isNone_iff_eq_none.mp h1
          simp only [List.cons_append, findHeading, if_true, flagAfter,
            List.append_eq]
          rw [hnone]
          exact findHeading_append t k (c == '\n') h2

theorem baseTypeSwitch_type (a : FieldAttributes) :
    (baseTypeSwitch a).type = a.type := by
  unfold baseTypeSwitch
  split
  all_goals first | rfl | (split <;> rfl)

theorem baseTypeSwitch_description (a : FieldAttributes) :
    (baseTypeSwitch a).description = a.description := by
  unfold baseTypeSwitch
  split
  all_goals first | rfl | (split <;> rfl)

theorem baseTypeSwitch_rustImport (a : FieldAttributes) :
    (baseTypeSwitch a).rustImport = a.rustImport := by
  unfold baseTypeSwitch
  split
  all_goals first | rfl | (split <;> rfl)

theorem nameSwitch_type (n : String) (a : FieldAttributes) :
    (nameSwitch n a).type = a.type := by
  unfold nameSwitch
  split
  all_goals first | rfl | (split <;> first | rfl | (split <;> rfl))

theorem appendRustType_type (n : String) (a : FieldAttributes) :
    (appendRustType n a).type = a.type := by
  unfold appendRustType
  rw [nameSwitch_type, baseTypeSwitch_type]

/-- Claim C1 (confirmed): for every attribute record whose type tag is
absent or `"map"` (with its `keys` mapping present, as the source's
`ObjectProperty` interface requires), the OpenAPI lowering produces an
object node whose `required` list is exactly the child names with
`required == true` in declaration order, and whose `properties` mapping
has exactly the child names as keys, in the same insertion order. -/
theorem object_lowering_required_and_properties (d : Option String) (r : Bool)
    (ty : Option String) (ks : SchemaList) (df : Option DefaultVal)
    (props : List (String × Option OpenapiNode))
    (hty : ty = none ∨ ty = some "map")
    (hok : lowerChildren ks = Except.ok props) :
    toOpenapiObjectProperty (.mk d r ty (.present ks) df) =
      .ok (.obj (describeD d df) (requiredKeys ks) props) ∧
    toOpenapiObjectPropertyA (.mk d r ty (.present ks) df) =
      .ok (some (.obj (describeD d df) (requiredKeys ks) props)) ∧
    requiredKeys ks = ((toPairs ks).filter (fun e => e.2.required)).map Prod.fst ∧
    props.map Prod.fst = (toPairs ks).map Prod.fst := by
  have hcore : lowerObjectCore (describeD d df) (.present ks) =
      .ok (.obj (describeD d df) (requiredKeys ks) props) := by
    simp [lowerObjectCore, hok]
  refine ⟨?_, ?_, requiredKeys_eq ks, lowerChildren_names ks props hok⟩
  · simpa [toOpenapiObjectProperty, describeProp, AttrRecord.description,
      AttrRecord.default, AttrRecord.keys] using hcore
  · rcases hty with h | h <;> subst h <;>
      simp [toOpenapiObjectPropertyA, hcore, Except.map]

def c1SchemaW : SchemaList :=
  .cons "topic" (.mk (some "MQTT topic") true (some "string") .absent none)
    (.cons "retain" (.mk (some "Retain flag") false (some "boolean") .absent
      (some (.bool true))) .nil)

def c1PropsW : List (String × Option OpenapiNode) :=
  [("topic", some (.str "MQTT topic")),
   ("retain", some (.str "Retain flag (Default: true)"))]

/-- Witness for claim C1 at a concrete two-child schema. -/
theorem object_lowering_required_and_properties_witness :
    ((some "map" : Option String) = none ∨ (some "map" : Option String) = some "map") ∧
    lowerChildren c1SchemaW = Except.ok c1PropsW ∧
    (toOpenapiObjectProperty (.mk (some "cfg") true (some "map") (.present c1SchemaW) none) =
        .ok (.obj "cfg" ["topic"] c1PropsW) ∧
      toOpenapiObjectPropertyA (.mk (some "cfg") true (some "map") (.present c1SchemaW) none) =
        .ok (some (.obj "cfg" ["topic"] c1PropsW)) ∧
      requiredKeys c1SchemaW =
        ((toPairs c1SchemaW).filter (fun e => e.2.required)).map Prod.fst ∧
      c1PropsW.map Prod.fst = (toPairs c1SchemaW).map Prod.fst) :=
  ⟨Or.inr rfl, rfl,
    object_lowering_required_and_properties (some "cfg") true (some "map")
      c1SchemaW none c1PropsW (Or.inr rfl) rfl⟩

/-- Claim C2 (amended): for every attribute record whose type tag is none
of the known set, the classifier switch falls through and the JavaScript
function returns `undefined` — no error is raised and no classification
error exists; the enclosing object still lists the field bound to an
undefined schema node. -/
theorem unknown_tag_silently_undefined (d : Option String) (r : Bool) (t : String)
    (ks : Keys) (df : Option DefaultVal)
    (h : t ∉ ["map", "list", "device_class", "boolean", "integer", "template", "string"]) :
    toOpenapiObjectPropertyA (.mk d r (some t) ks df) = .ok none := by
  simp only [toOpenapiObjectPropertyA]
  split <;> simp_all

/-- Witness for claim C2's amended statement at the unknown tag
`"float"`. -/
theorem unknown_tag_silently_undefined_witness :
    ("float" : String) ∉ ["map", "list", "device_class", "boolean", "integer", "template", "string"] ∧
    toOpenapiObjectPropertyA (.mk (some "sampling rate") true (some "float") .absent none) =
      .ok none :=
  ⟨by decide,
    unknown_tag_silently_undefined (some "sampling rate") true "float" .absent none (by decide)⟩

/-- Counterexample for claim C2 as stated: at the unknown tag `"float"`
the lowering does not fail — it returns successfully, and the enclosing
object keeps the field name bound to an undefined node (the field is
silently passed through, not rejected with a classification error). -/
theorem unknown_tag_counterexample :
    toOpenapiObjectPropertyA (.mk (some "A float value") false (some "float") .absent none) =
      .ok none ∧
    lowerChildren (.cons "f" (.mk (some "A float value") false (some "float") .absent none) .nil) =
      .ok [("f", none)] :=
  ⟨rfl, rfl⟩

/-- Claim C3 (amended): on a document containing no configuration
sentinel pair the constructor's extraction raises nothing at all — both
regex replacements match nothing, so the whole document text becomes the
extracted source and processing continues. -/
theorem extract_without_sentinels_is_identity (doc : List Char)
    (h1 : lastSplit OPEN_SENTINEL doc = none)
    (h2 : firstSplit CLOSE_SENTINEL doc = none) :
    extractConfigurationSource doc = doc := by
  simp [extractConfigurationSource, dropThroughLast, takeBeforeFirst, h1, h2]

/-- Witness for claim C3's amended statement on a concrete
sentinel-free document. -/
theorem extract_without_sentinels_is_identity_witness :
    lastSplit OPEN_SENTINEL "plain prose document".toList = none ∧
    firstSplit CLOSE_SENTINEL "plain prose document".toList = none ∧
    extractConfigurationSource "plain prose document".toList = "plain prose document".toList :=
  ⟨by decide, by decide,
    extract_without_sentinels_is_identity "plain prose document".toList
      (by decide) (by decide)⟩

/-- Counterexample for claim C3 as stated: the extraction of a document
with no sentinel pair succeeds and returns the document unchanged — the
extraction step is a total function with no failure path, so no
`ExtractionError` is ever raised and output production proceeds. -/
theorem extraction_never_fails_counterexample :
    extractConfigurationSource "just prose, nothing else".toList =
      "just prose, nothing else".toList := by
  decide

/-- Claim C4 (confirmed): for every attribute record with type tag
`"list"`: with `keys` absent the lowering produces exactly the array
schema with `items: \x7btype: "string"\x7d` and the synthesized description;
with `keys` present it produces an array schema whose `items` is the
bare mapping from child name to lowered child schema (not wrapped as an
object schema). -/
theorem list_lowering_items (d : Option String) (r : Bool) (df : Option DefaultVal)
    (ks : SchemaList) (props : List (String × Option OpenapiNode))
    (hok : lowerChildren ks = Except.ok props) :
    toOpenapiObjectPropertyA (.mk d r (some "list") .absent df) =
      .ok (some (.arrScalar (describeD d df))) ∧
    toOpenapiListProperty (.mk d r (some "list") .absent df) =
      .ok (.arrScalar (describeD d df)) ∧
    toOpenapiObjectPropertyA (.mk d r (some "list") (.present ks) df) =
      .ok (some (.arrBare (describeD d df) props)) ∧
    toOpenapiListProperty (.mk d r (some "list") (.present ks) df) =
      .ok (.arrBare (describeD d df) props) ∧
    props.map Prod.fst = (toPairs ks).map Prod.fst := by
  have hcore : lowerListCore (describeD d df) (.present ks) =
      .ok (.arrBare (describeD d df) props) := by
    simp [lowerListCore, hok]
  refine ⟨?_, ?_, ?_, ?_, lowerChildren_names ks props hok⟩
  · simp [toOpenapiObjectPropertyA, lowerListCore, Except.map]
  · simp [toOpenapiListProperty, describeProp, AttrRecord.description,
      AttrRecord.default, AttrRecord.keys, lowerListCore]
  · simp [toOpenapiObjectPropertyA, hcore, Except.map]
  · simpa [toOpenapiListProperty, describeProp, AttrRecord.description,
      AttrRecord.default, AttrRecord.keys] using hcore

def c4SchemaW : SchemaList :=
  .cons "topic" (.mk (some "Topic of one availability entry") true (some "string")
    .absent none) .nil

/-- Witness for claim C4 at a concrete singleton nested mapping. -/
theorem list_lowering_items_witness :
    lowerChildren c4SchemaW =
      Except.ok [("topic", some (.str "Topic of one availability entry"))] ∧
    (toOpenapiObjectPropertyA (.mk (some "List of entries") false (some "list") .absent none) =
        .ok (some (.arrScalar "List of entries")) ∧
      toOpenapiListProperty (.mk (some "List of entries") false (some "list") .absent none) =
        .ok (.arrScalar "List of entries") ∧
      toOpenapiObjectPropertyA (.mk (some "List of entries") false (some "list")
          (.present c4SchemaW) none) =
        .ok (some (.arrBare "List of entries"
          [("topic", some (.str "Topic of one availability entry"))])) ∧
      toOpenapiListProperty (.mk (some "List of entries") false (some "list")
          (.present c4SchemaW) none) =
        .ok (.arrBare "List of entries"
          [("topic", some (.str "Topic of one availability entry"))]) ∧
      ([("topic", some (OpenapiNode.str "Topic of one availability entry"))].map Prod.fst =
        (toPairs c4SchemaW).map Prod.fst)) :=
  ⟨rfl,
    list_lowering_items (some "List of entries") false none c4SchemaW
      [("topic", some (.str "Topic of one availability entry"))] rfl⟩

/-- Claim C5 (amended): with a nonempty description `D` and a truthy
string default `X` the synthesized description is `D ++ " (Default: X)"`;
with a falsy default (`""`, `false`, absent) it is `D` exactly; with no
description and a truthy default it is `"(Default: X)"` with no leading
separator.  An empty-string description is filtered out exactly like an
absent one. -/
theorem describe_default_annotation (d x : String) (r : Bool) (ty : Option String)
    (ks : Keys) (hd : d ≠ "") (hx : x ≠ "") :
    describeProp (.mk (some d) r ty ks (some (.str x))) = d ++ " (Default: " ++ x ++ ")" ∧
    describeProp (.mk (some d) r ty ks (some (.str ""))) = d ∧
    describeProp (.mk (some d) r ty ks (some (.bool false))) = d ∧
    describeProp (.mk (some d) r ty ks none) = d ∧
    describeProp (.mk none r ty ks (some (.str x))) = "(Default: " ++ x ++ ")" := by
  have hde : d.isEmpty = false := by
    cases h : d.isEmpty
    · rfl
    · exact absurd ((String.isEmpty_iff d).mp h) hd
  have hann : (("(Default: " ++ x ++ ")") : String).isEmpty = false := by
    cases h : (("(Default: " ++ x ++ ")") : String).isEmpty
    · rfl
    · exfalso
      have hlen := congrArg String.length ((String.isEmpty_iff _).mp h)
      rw [String.length_append, String.length_append] at hlen
      have h10 : ("(Default: " : String).length = 10 := rfl
      have h1 : (")" : String).length = 1 := rfl
      have h0 : ("" : String).length = 0 := rfl
      rw [h10, h1, h0] at hlen
      omega
  have hxe : x.isEmpty = false := by
    cases h : x.isEmpty
    · rfl
    · exact absurd ((String.isEmpty_iff x).mp h) hx
  refine ⟨?_, ?_, ?_, ?_, ?_⟩
  · simp only [describeProp, describeD, AttrRecord.description, AttrRecord.default,
      defaultAnnotation, DefaultVal.truthy, DefaultVal.render, hxe, Bool.not_false,
      if_true, List.filterMap, List.filter, hde, hann, joinSpace]
    simp only [← String.append_assoc]
    have hlit : (d ++ " ") ++ "(Default: " = d ++ " (Default: " := by
      rw [String.append_assoc]
      rfl
    rw [hlit]
  · simp [describeProp, describeD, AttrRecord.description, AttrRecord.default,
      defaultAnnotation, DefaultVal.truthy, hde, joinSpace]
  · simp [describeProp, describeD, AttrRecord.description, AttrRecord.default,
      defaultAnnotation, DefaultVal.truthy, hde, joinSpace]
  · simp [describeProp, describeD, AttrRecord.description, AttrRecord.default,
      defaultAnnotation, joinSpace, hde]
  · simp [describeProp, describeD, AttrRecord.description, AttrRecord.default,
      defaultAnnotation, DefaultVal.truthy, DefaultVal.render, hann, hxe, joinSpace]

/-- Witness for claim C5's amended statement at `D = "D"`, `X = "X"`. -/
theorem describe_default_annotation_witness :
    ("D" : String) ≠ "" ∧ ("X" : String) ≠ "" ∧
    (describeProp (.mk (some "D") false (some "string") .absent (some (.str "X"))) =
        "D (Default: X)" ∧
      describeProp (.mk (some "D") false (some "string") .absent (some (.str ""))) = "D" ∧
      describeProp (.mk (some "D") false (some "string") .absent (some (.bool false))) = "D" ∧
      describeProp (.mk (some "D") false (some "string") .absent none) = "D" ∧
      describeProp (.mk none false (some "string") .absent (some (.str "X"))) =
        "(Default: X)") :=
  ⟨by decide, by decide,
    describe_default_annotation "D" "X" false (some "string") .absent
      (by decide) (by decide)⟩

/-- Counterexample for claim C5 as stated: a property whose description
is the empty string and whose default is truthy synthesizes to
`"(Default: X)"`, not to the claim's `"" ++ " " ++ "(Default: X)"` — the
empty description is filtered out before joining. -/
theorem describe_empty_description_counterexample :
    describeProp (.mk (some "") false (some "string") .absent (some (.str "X"))) =
      "(Default: X)" ∧
    ("(Default: X)" : String) ≠ " (Default: X)" :=
  ⟨rfl, by decide⟩

/-- Claim C6 (confirmed): for every schema containing the six
availability-related properties, `getAvailabilityModel` yields a one-of
with exactly two branches: branch 1 is the all-of pair of the lowered
`availability` and `availability_mode` schemas, and branch 2 contains
exactly the four legacy availability names, in their original relative
order from the source schema. -/
theorem availability_projection (desc : Option String) (config : SchemaList)
    (props : List (String × Option OpenapiNode))
    (hok : lowerChildren config = Except.ok props)
    (h6 : ∀ n ∈ (["availability", "availability_mode"] ++ AVAILABILITY_PROPERTIES),
        n ∈ (toPairs config).map Prod.fst)
    (hnd : ((toPairs config).map Prod.fst).Nodup) :
    ∃ m, getAvailabilityModel desc config = Except.ok m ∧
      m.allOfBranch = [jsGet props "availability", jsGet props "availability_mode"] ∧
      (∀ r, schemaLookup config "availability" = some r →
        toOpenapiObjectPropertyA r = Except.ok (jsGet props "availability")) ∧
      (∀ r, schemaLookup config "availability_mode" = some r →
        toOpenapiObjectPropertyA r = Except.ok (jsGet props "availability_mode")) ∧
      m.legacyBranch.map Prod.fst =
        ((toPairs config).map Prod.fst).filter
          (fun n => AVAILABILITY_PROPERTIES.contains n) ∧
      (∀ n, n ∈ m.legacyBranch.map Prod.fst ↔
        (AVAILABILITY_PROPERTIES.contains n = true ∧ n ∈ (toPairs config).map Prod.fst)) ∧
      List.Perm (m.legacyBranch.map Prod.fst) AVAILABILITY_PROPERTIES := by
  have hmodel : toOpenapiObjectModel desc config =
      .ok (.obj (describeD desc none) (requiredKeys config) props) := by
    simp [toOpenapiObjectModel, toOpenapiObjectProperty, describeProp,
      AttrRecord.description, AttrRecord.default, AttrRecord.keys,
      lowerObjectCore, hok]
  have hnames := lowerChildren_names config props hok
  have hfilter : (props.filter (fun e => AVAILABILITY_PROPERTIES.contains e.1)).map Prod.fst
      = ((toPairs config).map Prod.fst).filter
          (fun n => AVAILABILITY_PROPERTIES.contains n) := by
    rw [filter_fst_map_fst, hnames]
  refine ⟨{ allOfBranch := [jsGet props "availability", jsGet props "availability_mode"],
            legacyBranch := props.filter (fun e => AVAILABILITY_PROPERTIES.contains e.1) },
    ?_, rfl, ?_, ?_, hfilter, ?_, ?_⟩
  · simp [getAvailabilityModel, hmodel, nodeProperties]
  · intro r hr
    exact lowerChildren_lookup config props "availability" r hok hr
  · intro r hr
    exact lowerChildren_lookup config props "availability_mode" r hok hr
  · intro n
    rw [hfilter, List.mem_filter]
    exact ⟨fun q => ⟨q.2, q.1⟩, fun q => ⟨q.2, q.1⟩⟩
  · rw [hfilter]
    have hLnd : (((toPairs config).map Prod.fst).filter
        (fun n => AVAILABILITY_PROPERTIES.contains n)).Nodup := hnd.filter _
    have hAnd : AVAILABILITY_PROPERTIES.Nodup := by decide
    rw [List.perm_ext_iff_of_nodup hLnd hAnd]
    intro a
    rw [List.mem_filter]
    constructor
    · intro q
      have := q.2
      simpa [AVAILABILITY_PROPERTIES, List.contains] using this
    · intro ha
      refine ⟨h6 a ?_, ?_⟩
      · simp [AVAILABILITY_PROPERTIES] at ha ⊢
        tauto
      · simpa [AVAILABILITY_PROPERTIES, List.contains] using ha

def c6SchemaW : SchemaList :=
  .cons "availability" (.mk (some "Availability list") false (some "list") .absent none)
    (.cons "availability_mode" (.mk (some "Mode") false (some "string") .absent none)
      (.cons "availability_topic" (.mk (some "Topic") false (some "string") .absent none)
        (.cons "payload_available" (.mk (some "PA") false (some "string") .absent none)
          (.cons "payload_not_available" (.mk (some "PNA") false (some "string") .absent none)
            (.cons "availability_template" (.mk (some "Tpl") false (some "template") .absent none)
              .nil)))))

def c6PropsW : List (String × Option OpenapiNode) :=
  [("availability", some (.arrScalar "Availability list")),
   ("availability_mode", some (.str "Mode")),
   ("availability_topic", some (.str "Topic")),
   ("payload_available", some (.str "PA")),
   ("payload_not_available", some (.str "PNA")),
   ("availability_template", some (.str "Tpl"))]

/-- Witness for claim C6 on a concrete reference schema holding the six
availability properties. -/
theorem availability_projection_witness :
    lowerChildren c6SchemaW = Except.ok c6PropsW ∧
    (∀ n ∈ (["availability", "availability_mode"] ++ AVAILABILITY_PROPERTIES),
      n ∈ (toPairs c6SchemaW).map Prod.fst) ∧
    ((toPairs c6SchemaW).map Prod.fst).Nodup ∧
    (∃ m, getAvailabilityModel (some "Sensor") c6SchemaW = Except.ok m ∧
      m.allOfBranch = [jsGet c6PropsW "availability", jsGet c6PropsW "availability_mode"] ∧
      (∀ r, schemaLookup c6SchemaW "availability" = some r →
        toOpenapiObjectPropertyA r = Except.ok (jsGet c6PropsW "availability")) ∧
      (∀ r, schemaLookup c6SchemaW "availability_mode" = some r →
        toOpenapiObjectPropertyA r = Except.ok (jsGet c6PropsW "availability_mode")) ∧
      m.legacyBranch.map Prod.fst =
        ((toPairs c6SchemaW).map Prod.fst).filter
          (fun n => AVAILABILITY_PROPERTIES.contains n) ∧
      (∀ n, n ∈ m.legacyBranch.map Prod.fst ↔
        (AVAILABILITY_PROPERTIES.contains n = true ∧
          n ∈ (toPairs c6SchemaW).map Prod.fst)) ∧
      List.Perm (m.legacyBranch.map Prod.fst) AVAILABILITY_PROPERTIES) :=
  ⟨rfl, by decide, by decide,
    availability_projection (some "Sensor") c6SchemaW c6PropsW rfl
      (by decide) (by decide)⟩

/-- Claim C7 (amended): in the `entity.ts` typed-model lowering, for
every raw schema whose `device` property (if any) carries the raw type
tag `"map"`, the output field set contains no field whose raw type tag
is literally `"list"` or `"map"` and no field named `"device"`,
regardless of the ignore-list configuration; with the actual
`IGNORED_ATTRS` the `device` exclusion holds for every schema
unconditionally.  (The variant lowering does not satisfy the original
claim; see the counterexample.) -/
theorem entity_lowering_filters (schema : List (String × FieldAttributes))
    (ign : List String)
    (hdev : ∀ a : FieldAttributes, ("device", a) ∈ schema → a.type = .tag "map") :
    (∀ n a, (n, a) ∈ generateMqttEntityProperties schema ign →
      a.type ≠ .tag "list" ∧ a.type ≠ .tag "map" ∧ n ≠ "device") ∧
    (∀ s2 : List (String × FieldAttributes), ∀ n a,
      (n, a) ∈ generateMqttEntityProperties s2 ENTITY_IGNORED_ATTRS → n ≠ "device") := by
  constructor
  · intro n a hmem
    simp only [generateMqttEntityProperties, List.mem_map] at hmem
    obtain ⟨⟨n0, a0⟩, he, heq⟩ := hmem
    injection heq with h1 h2
    subst h1
    subst h2
    simp only [entityFilteredEntries, List.mem_filter] at he
    obtain ⟨⟨hs, htag⟩, hign⟩ := he
    have htag' : tagIn ["list", "map"] a0.type = false := by simpa using htag
    refine ⟨?_, ?_, ?_⟩
    · rw [appendRustType_type]
      intro hEq
      rw [hEq] at htag'
      simp [tagIn] at htag'
    · rw [appendRustType_type]
      intro hEq
      rw [hEq] at htag'
      simp [tagIn] at htag'
    · intro hEq
      subst hEq
      rw [hdev a0 hs] at htag'
      simp [tagIn] at htag'
  · intro s2 n a hmem
    simp only [generateMqttEntityProperties, List.mem_map] at hmem
    obtain ⟨⟨n0, a0⟩, he, heq⟩ := hmem
    injection heq with h1 h2
    subst h1
    simp only [entityFilteredEntries, List.mem_filter] at he
    obtain ⟨_, hign⟩ := he
    intro hEq
    subst hEq
    simp [ENTITY_IGNORED_ATTRS] at hign

def c7DevW : FieldAttributes :=
  { description := "Device information", required := false, type := .tag "map" }

def c7NameW : FieldAttributes :=
  { description := "Entity name", required := false, type := .tag "string" }

def c7ListAttr : FieldAttributes :=
  { description := "List of selectable options", required := true, type := .tag "list" }

/-- Witness for claim C7's amended statement on a concrete schema with a
map-typed `device` entry and an empty ignore list. -/
theorem entity_lowering_filters_witness :
    (∀ a : FieldAttributes,
      ("device", a) ∈ [("device", c7DevW), ("name", c7NameW)] → a.type = .tag "map") ∧
    ((∀ n a, (n, a) ∈ generateMqttEntityProperties [("device", c7DevW), ("name", c7NameW)] [] →
        a.type ≠ .tag "list" ∧ a.type ≠ .tag "map" ∧ n ≠ "device") ∧
      (∀ s2 : List (String × FieldAttributes), ∀ n a,
        (n, a) ∈ generateMqttEntityProperties s2 ENTITY_IGNORED_ATTRS → n ≠ "device")) := by
  have hdev : ∀ a : FieldAttributes,
      ("device", a) ∈ [("device", c7DevW), ("name", c7NameW)] → a.type = .tag "map" := by
    intro a h
    rcases List.mem_cons.mp h with h1 | h1
    · injection h1 with _ h2
      rw [h2]
      rfl
    · rcases List.mem_cons.mp h1 with h2 | h2
      · injection h2 with h3 _
        exact absurd h3 (by decide)
      · exact absurd h2 (List.not_mem_nil _)
  exact ⟨hdev, entity_lowering_filters [("device", c7DevW), ("name", c7NameW)] [] hdev⟩

/-- Counterexample for claim C7 as stated: the variant typed-model
lowering keeps a field whose raw type tag is literally `"list"` even
under its actual ignore list, and keeps a map-typed field named
`"device"` under an empty ignore-list configuration. -/
theorem variant_lowering_keeps_list_counterexample :
    ((variantMqttEntityProperties [("options", c7ListAttr)] VARIANT_IGNORED_ATTRS).map
        (fun e => (e.1, e.2.type))) = [("options", GenType.tag "list")] ∧
    ((variantMqttEntityProperties [("device", c7DevW)] []).map
        (fun e => (e.1, e.2.type))) = [("device", GenType.tag "map")] := by
  exact ⟨rfl, rfl⟩

/-- Claim C9 (amended): the constructor's extractor returns the text
strictly between the LAST occurrence of the opening sentinel and the
first closing sentinel that follows it — the leading greedy dot-all
prefix of `/.*open/s` reaches the last opening sentinel, so with more
than one delimited region it is not the first region that is kept. -/
theorem extract_between_last_open_first_close (A X B : List Char)
    (hOpen : lastSplit OPEN_SENTINEL
      (OPEN_SENTINEL.drop 1 ++ (X ++ (CLOSE_SENTINEL ++ B))) = none)
    (hClose : ∀ i, i < X.length →
      CLOSE_SENTINEL.isPrefixOf ((X ++ (CLOSE_SENTINEL ++ B)).drop i) = false) :
    extractConfigurationSource (A ++ (OPEN_SENTINEL ++ (X ++ (CLOSE_SENTINEL ++ B)))) = X := by
  have h1 := lastSplit_append OPEN_SENTINEL (by decide) A (X ++ (CLOSE_SENTINEL ++ B)) hOpen
  have h2 := firstSplit_append CLOSE_SENTINEL (by decide) X B hClose
  simp [extractConfigurationSource, dropThroughLast, takeBeforeFirst, h1, h2]

def c9A : List Char :=
  "intro ".toList ++ OPEN_SENTINEL ++ " first: true ".toList ++ CLOSE_SENTINEL ++
    " middle ".toList

/-- Witness for claim C9's amended statement: the prefix `c9A` itself
holds a complete earlier region, and the extraction returns the body of
the last region. -/
theorem extract_between_last_open_first_close_witness :
    lastSplit OPEN_SENTINEL
      (OPEN_SENTINEL.drop 1 ++ (" second: false ".toList ++ (CLOSE_SENTINEL ++ " tail".toList))) = none ∧
    (∀ i, i < " second: false ".toList.length →
      CLOSE_SENTINEL.isPrefixOf
        ((" second: false ".toList ++ (CLOSE_SENTINEL ++ " tail".toList)).drop i) = false) ∧
    extractConfigurationSource
      (c9A ++ (OPEN_SENTINEL ++ (" second: false ".toList ++ (CLOSE_SENTINEL ++ " tail".toList)))) =
      " second: false ".toList :=
  ⟨by decide, by decide,
    extract_between_last_open_first_close c9A " second: false ".toList " tail".toList
      (by decide) (by decide)⟩

def c9Doc : List Char :=
  OPEN_SENTINEL ++ " first ".toList ++ CLOSE_SENTINEL ++ " mid ".toList ++
    OPEN_SENTINEL ++ " second ".toList ++ CLOSE_SENTINEL ++ " tail".toList

/-- Counterexample for claim C9 as stated: on a document with two
sentinel-delimited regions the constructor's extractor returns the
second region, and the `entity.ts` extractor's greedy capture spans from
the first opening sentinel to the last closing sentinel — neither
returns the first region. -/
theorem extract_not_first_region_counterexample :
    extractConfigurationSource c9Doc = " second ".toList ∧
    entityExtract c9Doc =
      some (" first ".toList ++ CLOSE_SENTINEL ++ " mid ".toList ++
        OPEN_SENTINEL ++ " second ".toList) ∧
    (" second ".toList : List Char) ≠ " first ".toList := by
  decide

theorem nameSwitch_dc_eq (a : FieldAttributes) :
    nameSwitch "device_class" a =
      match findAnchor a.description.toList with
      | some nm =>
          if nm.isEmpty then a
          else
            let dc := toPascalCase (String.mk nm) ++ "DeviceClass"
            { a with rustType := some dc,
                     rustImport := some ("use super::device_classes::" ++ dc) }
      | none => a := rfl

theorem appendRustType_dc_no_anchor (b : FieldAttributes)
    (h : findAnchor b.description.toList = none) :
    appendRustType "device_class" b =
      baseTypeSwitch { b with rustSafeName := some "device_class" } := by
  unfold appendRustType
  rw [show (if ("device_class" : String) == "type" then "r#" ++ "device_class"
      else "device_class") = "device_class" from by decide]
  rw [nameSwitch_dc_eq]
  have hdesc : (baseTypeSwitch { b with rustSafeName := some "device_class" }).description
      = b.description := baseTypeSwitch_description _
  rw [hdesc, h]

theorem baseTypeSwitch_string_rustType (y : FieldAttributes)
    (h : y.type = .tag "string") : (baseTypeSwitch y).rustType = some "String" := by
  unfold baseTypeSwitch
  rw [h]
  rfl

/-- Claim C10 (confirmed): for a `device_class` field whose description
does not match the `/integrations/<name>/#device-class` anchor pattern,
`appendRustType` leaves the base-mapped type unchanged (for a `"string"`
tag this is the generic `String` type) and records no import
requirement; the named-enumeration override is applied only when the
anchor pattern matches the description. -/
theorem device_class_without_anchor (a : FieldAttributes)
    (hnoanchor : findAnchor a.description.toList = none)
    (himp : a.rustImport = none) :
    appendRustType "device_class" a =
      baseTypeSwitch { a with rustSafeName := some "device_class" } ∧
    (appendRustType "device_class" a).rustImport = none ∧
    (a.type = .tag "string" → (appendRustType "device_class" a).rustType = some "String") ∧
    (∀ b : FieldAttributes, b.rustImport = none →
      (appendRustType "device_class" b).rustImport ≠ none →
      findAnchor b.description.toList ≠ none) := by
  have hmain := appendRustType_dc_no_anchor a hnoanchor
  refine ⟨hmain, ?_, ?_, ?_⟩
  · rw [hmain, baseTypeSwitch_rustImport]
    exact himp
  · intro ht
    rw [hmain]
    exact baseTypeSwitch_string_rustType _ ht
  · intro b hb hneq
    cases hcase : findAnchor b.description.toList with
    | some nm => simp
    | none =>
        rw [appendRustType_dc_no_anchor b hcase, baseTypeSwitch_rustImport] at hneq
        exact absurd hb hneq

def c10AttrW : FieldAttributes :=
  { description := "The type of the device, used to set its icon.",
    required := false, type := .tag "string" }

/-- Witness for claim C10 at a concrete anchor-free `device_class`
record. -/
theorem device_class_without_anchor_witness :
    findAnchor c10AttrW.description.toList = none ∧
    c10AttrW.rustImport = none ∧
    (appendRustType "device_class" c10AttrW =
        baseTypeSwitch { c10AttrW with rustSafeName := some "device_class" } ∧
      (appendRustType "device_class" c10AttrW).rustImport = none ∧
      (c10AttrW.type = .tag "string" →
        (appendRustType "device_class" c10AttrW).rustType = some "String") ∧
      (∀ b : FieldAttributes, b.rustImport = none →
        (appendRustType "device_class" b).rustImport ≠ none →
        findAnchor b.description.toList ≠ none)) :=
  ⟨by decide, rfl, device_class_without_anchor c10AttrW (by decide) rfl⟩

def dcMiddle : String :=
  "### Device Class\n- `motion`: Motion detected.\n- `door`: Door opened.\n### Other Section\n"

/-- Claim C8 (confirmed): for every markdown document consisting of any
prefix with no device-class heading match (ending at a line boundary),
then the heading `### Device Class`, the two bullet lines for `motion`
and `door`, the heading `### Other Section`, and any suffix, the
extractor yields exactly the ordered pairs `("motion", "Motion
detected.")` and `("door", "Door opened.")`: backticks (non-word
characters) are stripped from the value tokens, nothing after the next
heading is included, and non-matching lines are dropped without
error. -/
theorem device_class_enum_extraction (name : String) (p s : List Char)
    (hp : scanNoMatch p (dcMiddle.toList ++ s) true = true)
    (hf : flagAfter p true = true) :
    extractDeviceClassesEnums name (p ++ (dcMiddle.toList ++ s)) =
      some (name, [("motion".toList, "Motion detected.".toList),
                   ("door".toList, "Door opened.".toList)]) := by
  have h1 : findHeading (p ++ (dcMiddle.toList ++ s)) true
      = findHeading (dcMiddle.toList ++ s) true := by
    rw [findHeading_append p (dcMiddle.toList ++ s) true hp, hf]
  have h2 : findHeading (dcMiddle.toList ++ s) true
      = some ("\n- `motion`: Motion detected.\n- `door`: Door opened.\n### Other Section\n".toList ++ s) := rfl
  have h3 : stripFromHeading
      ("\n- `motion`: Motion detected.\n- `door`: Door opened.\n### Other Section\n".toList ++ s) true
      = "\n- `motion`: Motion detected.\n- `door`: Door opened.\n".toList := rfl
  simp only [extractDeviceClassesEnums, h1, h2, h3]
  rfl

/-- Witness for claim C8 with the empty prefix and the suffix
`"ignored\n"`. -/
theorem device_class_enum_extraction_witness :
    scanNoMatch [] (dcMiddle.toList ++ "ignored\n".toList) true = true ∧
    flagAfter [] true = true ∧
    extractDeviceClassesEnums "BinarySensor" ([] ++ (dcMiddle.toList ++ "ignored\n".toList)) =
      some ("BinarySensor", [("motion".toList, "Motion detected.".toList),
                            ("door".toList, "Door opened.".toList)]) :=
  ⟨rfl, rfl,
    device_class_enum_extraction "BinarySensor" [] "ignored\n".toList rfl rfl⟩
